import Mathlib

/-!
Verification of the CodeHub snippet view pipeline.

This file gives a shallow embedding, in Lean, of the client-side
filtering/sorting pipeline of the CodeHub snippet manager
(src/client/src/components/snippets/embed/EmbedView.tsx, component
BaseSnippetStorage), of the category toggle handler, of the
recycle-bin bulk delete flow, and of the JSON import loop of the
settings modal, together with theorems settling the specification's
claims about them.

Modelling conventions:
  - JavaScript strings are Lean strings; case folding uses the ASCII
    case table (Char.toLower), which agrees with JS toLowerCase on the
    ASCII range used throughout.
  - String comparison (both localeCompare and the default sort used on
    facet lists) is modelled as code-point lexicographic comparison,
    cmpCharList; for the ASCII data in the examples this agrees with
    the browser's locale comparison.
  - new Date(s).getTime() is modelled by storing updated_at directly
    as a numeric timestamp (Nat); the pipeline only ever compares
    these values.
  - Array.prototype.sort with a comparator is, per ES2019, a stable
    sort; it is modelled by List.insertionSort on the relation
    "comparator result is nonpositive", which is the standard stable
    insertion sort.
  - Asynchronous callbacks (onPermanentDeleteAll, addSnippet) are
    modelled by recording their call arguments, respectively by an
    explicit per-item outcome.
-/

namespace CodeHub

/-! ## String machinery -/

/-- Code-point lexicographic three-way comparison of character lists.
Models both String.prototype.localeCompare and the default comparison
of Array.prototype.sort for the ASCII data this pipeline handles. -/
def cmpCharList : List Char → List Char → Int
  | [], [] => 0
  | [], _ :: _ => -1
  | _ :: _, [] => 1
  | a :: as, b :: bs =>
      if a.toNat < b.toNat then -1
      else if b.toNat < a.toNat then 1
      else cmpCharList as bs

/-- Model of String.prototype.localeCompare (see cmpCharList). -/
def localeCompare (a b : String) : Int := cmpCharList a.data b.data

/-- Model of String.prototype.toLowerCase (ASCII case table). -/
def strLower (s : String) : String := ⟨s.data.map Char.toLower⟩

/-- Boolean test that the first character list is a prefix of the second. -/
def charPre : List Char → List Char → Bool
  | [], _ => true
  | _ :: _, [] => false
  | a :: as, b :: bs => a == b && charPre as bs

/-- Boolean test that the first character list occurs as a contiguous
sublist of the second. -/
def charSub (n : List Char) : List Char → Bool
  | [] => n.isEmpty
  | c :: t => charPre n (c :: t) || charSub n t

/-- Model of hay.includes(needle) for JS strings. -/
def strIncludes (hay needle : String) : Bool := charSub needle.data hay.data

/-- The substring relation, stated structurally: the needle occurs
contiguously inside the haystack. -/
def IsSubstr (needle hay : String) : Prop :=
  ∃ pre post, hay.data = pre ++ needle.data ++ post

/-! ## Data model

Translated from the Snippet type used throughout the client
(types/snippets): multi-fragment snippets with 0/1-valued pin and
favorite flags and a numeric recency timestamp (see the header note on
dates). -/

structure Fragment where
  file_name : String
  language : String
  code : String
deriving DecidableEq

structure Snippet where
  id : String
  title : String
  description : String
  fragments : List Fragment
  categories : List String
  is_pinned : Nat
  is_favorite : Nat
  updated_at : Nat
deriving DecidableEq

/-- The data-model invariant on the pin flag: it is boolean-valued,
represented as 0/1 (an abbreviation so that it stays decidable on
concrete data). -/
abbrev FlagsWF (l : List Snippet) : Prop :=
  ∀ s ∈ l, s.is_pinned = 0 ∨ s.is_pinned = 1

/-- The sortOrder values of BaseSnippetStorage
("newest" | "oldest" | "alpha-asc" | "alpha-desc"). -/
inductive SortOrder where
  | newest
  | oldest
  | alphaAsc
  | alphaDesc
deriving DecidableEq

/-- The filter/sort state owned by BaseSnippetStorage: the searchTerm,
selectedLanguage, selectedCategories, sortOrder and showFavorites
pieces of component state, plus the includeCodeInSearch setting passed
in as a prop. -/
structure FilterState where
  searchTerm : String
  selectedLanguage : String
  selectedCategories : List String
  sortOrder : SortOrder
  showFavorites : Bool
  includeCodeInSearch : Bool

/-- Modelled from the spec: getLanguageLabel
(utils/language/languageUtils) is imported by the reviewed components
but its source is not part of the reviewed corpus. The spec describes
it as the language-label normalization function used for display,
mapping raw language identifiers to display labels (for example a
fragment language that "normalizes to Python"). It is modelled as a
finite lookup of that shape with identity fallback. -/
def getLanguageLabel (language : String) : String :=
  if language = "python" then "Python"
  else if language = "py" then "Python"
  else if language = "js" then "JavaScript"
  else if language = "javascript" then "JavaScript"
  else if language = "ts" then "TypeScript"
  else language

/-! ## The filter predicate (filteredSnippets, filtering stage) -/

/-- One fragment's contribution to the search match: file name,
normalized language label, and (only when includeCodeInSearch is on)
raw code, each matched against the lowercased search term. -/
def fragTextHit (includeCode : Bool) (search : String) (f : Fragment) : Bool :=
  strIncludes (strLower f.file_name) search ||
  strIncludes (strLower (getLanguageLabel f.language)) search ||
  (includeCode && strIncludes (strLower f.code) search)

/-- The text-match part of the filter: basicMatch || fragmentMatch from
the source, with search = searchTerm.toLowerCase(). -/
def textMatch (includeCode : Bool) (searchTerm : String) (s : Snippet) : Bool :=
  let search := strLower searchTerm
  (strIncludes (strLower s.title) search ||
    strIncludes (strLower s.description) search) ||
  s.fragments.any (fragTextHit includeCode search)

/-- The languageMatch part of the filter. -/
def languageMatch (selectedLanguage : String) (s : Snippet) : Bool :=
  selectedLanguage == "" ||
  s.fragments.any (fun f =>
    strLower (getLanguageLabel f.language) == strLower selectedLanguage)

/-- The categoryMatch part of the filter. -/
def categoryMatch (selectedCategories : List String) (s : Snippet) : Bool :=
  selectedCategories.isEmpty ||
  selectedCategories.all (fun cat => s.categories.contains cat)

/-- The whole filter callback of filteredSnippets: the favorites gate
followed by (basicMatch || fragmentMatch) && languageMatch &&
categoryMatch. -/
def snippetFilter (st : FilterState) (s : Snippet) : Bool :=
  if st.showFavorites && !(s.is_favorite == 1) then false
  else
    textMatch st.includeCodeInSearch st.searchTerm s &&
    languageMatch st.selectedLanguage s &&
    categoryMatch st.selectedCategories s

/-! ## The sort comparator and the full pipeline -/

/-- The comparator passed to .sort in filteredSnippets: pinned first
(by descending is_pinned), recency among doubly-pinned pairs, and the
chosen sortOrder otherwise. -/
def cmpSnippet (so : SortOrder) (a b : Snippet) : Int :=
  if a.is_pinned ≠ b.is_pinned then (b.is_pinned : Int) - (a.is_pinned : Int)
  else if a.is_pinned = 1 ∧ b.is_pinned = 1 then
    (b.updated_at : Int) - (a.updated_at : Int)
  else
    match so with
    | SortOrder.newest => (b.updated_at : Int) - (a.updated_at : Int)
    | SortOrder.oldest => (a.updated_at : Int) - (b.updated_at : Int)
    | SortOrder.alphaAsc => localeCompare a.title b.title
    | SortOrder.alphaDesc => localeCompare b.title a.title

/-- The sort relation induced by the comparator: a sorts no later than
b when the comparator result is nonpositive. -/
def snipR (so : SortOrder) (a b : Snippet) : Prop := cmpSnippet so a b ≤ 0

instance (so : SortOrder) : DecidableRel (snipR so) :=
  fun a b => inferInstanceAs (Decidable (cmpSnippet so a b ≤ 0))

/-- The filteredSnippets pipeline: filter then stable sort. -/
def filteredSnippets (st : FilterState) (snippets : List Snippet) : List Snippet :=
  List.insertionSort (snipR st.sortOrder) (snippets.filter (snippetFilter st))

/-! ## Derived facets -/

/-- First-occurrence deduplication with an accumulator of already-seen
values: the iteration order of a JS Set built by successive adds. -/
def setDedupAux {α : Type} [DecidableEq α] (seen : List α) : List α → List α
  | [] => []
  | a :: l => if a ∈ seen then setDedupAux seen l else a :: setDedupAux (a :: seen) l

/-- Deduplication preserving first occurrences, as by a JS Set. -/
def setDedup {α : Type} [DecidableEq α] (l : List α) : List α := setDedupAux [] l

/-- The string sort relation used by the parameterless .sort() on the
facet arrays. -/
def strR (a b : String) : Prop := localeCompare a b ≤ 0

instance : DecidableRel strR :=
  fun a b => inferInstanceAs (Decidable (localeCompare a b ≤ 0))

/-- The languages facet: distinct normalized labels over all fragments
of all snippets, sorted. -/
def languages (snippets : List Snippet) : List String :=
  List.insertionSort strR
    (setDedup ((snippets.map (fun s =>
      s.fragments.map (fun f => getLanguageLabel f.language))).flatten))

/-- The allCategories facet: distinct category tags over all snippets,
sorted. -/
def allCategories (snippets : List Snippet) : List String :=
  List.insertionSort strR (setDedup ((snippets.map Snippet.categories).flatten))

/-- Everything BaseSnippetStorage derives from the snippet collection
and the filter state and hands to the rendering layer. -/
structure ViewOutput where
  filtered : List Snippet
  langs : List String
  cats : List String
deriving DecidableEq

/-- The full derived view: the filtered/sorted list (a function of
snippets and the filter state) and the two facets (functions of the
snippets alone). -/
def pipelineView (st : FilterState) (snippets : List Snippet) : ViewOutput :=
  { filtered := filteredSnippets st snippets
    langs := languages snippets
    cats := allCategories snippets }

/-! ## URL synchronization (handleCategoryClick) -/

/-- The two query parameters the view rewrites; a value of none means
the parameter is absent from the URL. -/
structure UrlParams where
  categories : Option String
  language : Option String
deriving DecidableEq

/-- Comma-join, as by Array.prototype.join(","). -/
def joinComma : List String → String
  | [] => ""
  | [a] => a
  | a :: rest => a ++ "," ++ joinComma rest

/-- The params object built inside handleCategoryClick (and
handleLanguageChange): categories set only when the list is non-empty,
language set only when non-empty. -/
def paramsFor (cats : List String) (language : String) : UrlParams :=
  { categories := if cats.length > 0 then some (joinComma cats) else none
    language := if language ≠ "" then some language else none }

/-- handleCategoryClick: toggle the category's membership in the
selected list (removal filters it out, addition appends at the end)
and rewrite the URL parameters from the updated list. Returns the
updated selectedCategories list and the params passed to
setSearchParams. -/
def handleCategoryClick (category : String) (prev : List String)
    (language : String) : List String × UrlParams :=
  let updatedCategories :=
    if category ∈ prev then prev.filter (fun c => c ≠ category)
    else prev ++ [category]
  (updatedCategories, paramsFor updatedCategories language)

/-! ## Recycle-bin bulk delete (openPermanentDeleteAllModal /
handlePermanentDeleteAllConfirm)

The component state touched by the flow: whether the confirmation
modal is open, how many info toasts were raised, and the argument of
every onPermanentDeleteAll call made so far (the callback is modelled
by recording its argument; in recycle-bin mode it is provided). -/

structure BinState where
  modalOpen : Bool
  infoToasts : Nat
  deleteAllCalls : List (List Snippet)
deriving DecidableEq

/-- openPermanentDeleteAllModal: with an empty snippets prop, raise an
info toast and stop; otherwise open the confirmation modal. -/
def openPermanentDeleteAllModal (snippets : List Snippet) (st : BinState) :
    BinState :=
  if snippets.length = 0 then { st with infoToasts := st.infoToasts + 1 }
  else { st with modalOpen := true }

/-- handlePermanentDeleteAllConfirm: close the modal, then call
onPermanentDeleteAll with the snippets prop. -/
def handlePermanentDeleteAllConfirm (snippets : List Snippet) (st : BinState) :
    BinState :=
  { st with
    modalOpen := false
    deleteAllCalls := st.deleteAllCalls ++ [snippets] }

/-! ## JSON import loop (handleImportFile, SettingsModal) -/

/-- One validated snippet of the import file together with the outcome
of its addSnippet call: none when the returned promise resolves, some
message when it rejects with that error message. -/
structure ImportItem where
  title : String
  outcome : Option String
deriving DecidableEq

/-- The ImportProgress record of SettingsModal. Errors are recorded as
(title, error message) pairs. -/
structure ImportProgress where
  total : Nat
  current : Nat
  succeeded : Nat
  failed : Nat
  errors : List (String × String)
deriving DecidableEq

/-- One iteration of the import loop: try the snippet, bump succeeded
or (failed plus an error entry), and always bump current. -/
def importStep (p : ImportProgress) (it : ImportItem) : ImportProgress :=
  match it.outcome with
  | none =>
      { p with succeeded := p.succeeded + 1, current := p.current + 1 }
  | some e =>
      { p with
        failed := p.failed + 1
        errors := p.errors ++ [(it.title, e)]
        current := p.current + 1 }

/-- The whole import loop: progress starts at zero with total the
number of validated snippets, then every snippet is attempted in
order, a failure only adding an error entry and never stopping the
loop. -/
def importLoop (items : List ImportItem) : ImportProgress :=
  items.foldl importStep
    { total := items.length, current := 0, succeeded := 0, failed := 0, errors := [] }

/-! ## Concrete example data used by the spec's examples,
counterexamples and witnesses -/

/-- The spec's example snippet S1: title "Alpha", pinned, updated
2024-01-01 (timestamps keep the dates' order). -/
def exS1 : Snippet :=
  { id := "s1", title := "Alpha", description := "first"
    fragments := [⟨"a.py", "python", "print(1)"⟩]
    categories := ["util"], is_pinned := 1, is_favorite := 0
    updated_at := 20240101 }

/-- The spec's example snippet S2: title "Beta", unpinned, updated
2024-03-01. -/
def exS2 : Snippet :=
  { id := "s2", title := "Beta", description := "second"
    fragments := [⟨"b.js", "js", "let x = 2"⟩]
    categories := ["web"], is_pinned := 0, is_favorite := 0
    updated_at := 20240301 }

/-- The spec's example snippet S3: title "Gamma", pinned, updated
2024-02-01. -/
def exS3 : Snippet :=
  { id := "s3", title := "Gamma", description := "third"
    fragments := [⟨"c.ts", "ts", "const y = 3"⟩]
    categories := ["util", "web"], is_pinned := 1, is_favorite := 0
    updated_at := 20240201 }

/-- Default filter state with sortOrder alpha-asc. -/
def alphaState : FilterState :=
  { searchTerm := "", selectedLanguage := "", selectedCategories := []
    sortOrder := SortOrder.alphaAsc, showFavorites := false
    includeCodeInSearch := false }

/-- Default filter state: empty search, no language, no categories,
sortOrder newest, favorites off. -/
def defaultState : FilterState :=
  { searchTerm := "", selectedLanguage := "", selectedCategories := []
    sortOrder := SortOrder.newest, showFavorites := false
    includeCodeInSearch := false }

/-- Default state with the favorites filter on. -/
def favState : FilterState :=
  { defaultState with showFavorites := true }

/-- Two pinned snippets sharing one updated_at timestamp. -/
def tieP1 : Snippet :=
  { id := "p1", title := "A", description := ""
    fragments := [⟨"p1.py", "python", ""⟩], categories := []
    is_pinned := 1, is_favorite := 0, updated_at := 100 }

/-- Second pinned snippet with the same timestamp as tieP1. -/
def tieP2 : Snippet :=
  { id := "p2", title := "B", description := ""
    fragments := [⟨"p2.py", "python", ""⟩], categories := []
    is_pinned := 1, is_favorite := 0, updated_at := 100 }

/-- A favorite-flagged snippet. -/
def favSnip : Snippet :=
  { id := "f", title := "Fav", description := ""
    fragments := [⟨"f.py", "python", ""⟩], categories := []
    is_pinned := 0, is_favorite := 1, updated_at := 5 }

/-- A snippet that is not favorite-flagged. -/
def plainSnip : Snippet :=
  { id := "g", title := "Plain", description := ""
    fragments := [⟨"g.py", "python", ""⟩], categories := []
    is_pinned := 0, is_favorite := 0, updated_at := 9 }

/-- A snippet whose only fragment's language normalizes to "Python". -/
def pySnip : Snippet :=
  { id := "py", title := "notes", description := ""
    fragments := [⟨"main.rs", "python", "x = 1"⟩], categories := []
    is_pinned := 0, is_favorite := 0, updated_at := 7 }

/-- A snippet with category set {a, b}. -/
def abSnip : Snippet :=
  { id := "ab", title := "ab", description := ""
    fragments := [⟨"ab.py", "python", ""⟩], categories := ["a", "b"]
    is_pinned := 0, is_favorite := 0, updated_at := 1 }

/-- Initial recycle-bin interaction state: modal closed, no toasts, no
calls yet. -/
def binInit : BinState :=
  { modalOpen := false, infoToasts := 0, deleteAllCalls := [] }

/-! ## Substring lemmas -/

theorem charPre_iff (n h : List Char) :
    charPre n h = true ↔ ∃ rest, h = n ++ rest := by
  induction n generalizing h with
  | nil => simp [charPre]
  | cons a as ih =>
    cases h with
    | nil => simp [charPre]
    | cons b bs =>
      simp only [charPre, Bool.and_eq_true, beq_iff_eq, ih]
      constructor
      · rintro ⟨rfl, rest, rfl⟩
        exact ⟨rest, rfl⟩
      · rintro ⟨rest, hr⟩
        rw [List.cons_append] at hr
        cases hr
        exact ⟨rfl, rest, rfl⟩

theorem charSub_iff (n h : List Char) :
    charSub n h = true ↔ ∃ pre post, h = pre ++ n ++ post := by
  induction h with
  | nil =>
    simp only [charSub, List.isEmpty_iff]
    constructor
    · rintro rfl
      exact ⟨[], [], rfl⟩
    · rintro ⟨pre, post, hp⟩
      rcases List.append_eq_nil.mp (List.append_eq_nil.mp hp.symm).1 with ⟨-, h2⟩
      exact h2
  | cons c t ih =>
    simp only [charSub, Bool.or_eq_true, charPre_iff, ih]
    constructor
    · rintro (⟨rest, hr⟩ | ⟨pre, post, hp⟩)
      · exact ⟨[], rest, by simp [hr]⟩
      · exact ⟨c :: pre, post, by simp [hp]⟩
    · rintro ⟨pre, post, hp⟩
      cases pre with
      | nil =>
        left
        exact ⟨post, by simpa using hp⟩
      | cons p ps =>
        right
        rw [List.cons_append, List.cons_append] at hp
        cases hp
        exact ⟨ps, post, rfl⟩

theorem strIncludes_iff (hay needle : String) :
    strIncludes hay needle = true ↔ IsSubstr needle hay :=
  charSub_iff needle.data hay.data

theorem strIncludes_empty (hay : String) : strIncludes hay "" = true := by
  cases hay with
  | mk data =>
    cases data with
    | nil => rfl
    | cons c t => simp [strIncludes, charSub, charPre]

/-! ## Order lemmas for string comparison -/

theorem cmpCharList_neg (a b : List Char) :
    cmpCharList a b = -cmpCharList b a := by
  induction a generalizing b with
  | nil => cases b <;> simp [cmpCharList]
  | cons x xs ih =>
    cases b with
    | nil => simp [cmpCharList]
    | cons y ys =>
      simp only [cmpCharList]
      split_ifs <;> first | omega | exact ih ys

theorem cmpCharList_trans (a b c : List Char)
    (hab : cmpCharList a b ≤ 0) (hbc : cmpCharList b c ≤ 0) :
    cmpCharList a c ≤ 0 := by
  induction a generalizing b c with
  | nil => cases c <;> simp [cmpCharList]
  | cons x xs ih =>
    cases b with
    | nil => simp [cmpCharList] at hab
    | cons y ys =>
      cases c with
      | nil => simp [cmpCharList] at hbc
      | cons z zs =>
        simp only [cmpCharList] at hab hbc ⊢
        split_ifs at hab hbc ⊢ <;>
          first | omega | exact ih ys zs hab hbc

theorem cmpCharList_total (a b : List Char) :
    cmpCharList a b ≤ 0 ∨ cmpCharList b a ≤ 0 := by
  rcases le_or_lt (cmpCharList a b) 0 with h | h
  · exact Or.inl h
  · right
    rw [cmpCharList_neg]
    omega

/-! ## Generic lemmas about stable insertion sort

Array.prototype.sort with a comparator is modelled by
List.insertionSort on the relation "comparator is nonpositive". The
lemmas here decompose a stable sort along a partition that the
comparator strictly respects, and show the sort only depends on the
comparator's values on elements of the list. -/

theorem orderedInsert_append_pre {α : Type} (r : α → α → Prop) [DecidableRel r]
    (x : α) (A B : List α) (hB : ∀ b ∈ B, r x b) :
    List.orderedInsert r x (A ++ B) = List.orderedInsert r x A ++ B := by
  induction A with
  | nil =>
    cases B with
    | nil => rfl
    | cons b bs =>
      simp only [List.nil_append, List.orderedInsert, List.orderedInsert_nil,
        if_pos (hB b (by simp))]
      rfl
  | cons a A ih =>
    simp only [List.cons_append, List.orderedInsert]
    split
    · rfl
    · simp only [List.append_eq]
      rw [ih]
      rfl

theorem orderedInsert_append_post {α : Type} (r : α → α → Prop) [DecidableRel r]
    (x : α) (A B : List α) (hA : ∀ a ∈ A, ¬r x a) :
    List.orderedInsert r x (A ++ B) = A ++ List.orderedInsert r x B := by
  induction A with
  | nil => rfl
  | cons a A ih =>
    simp only [List.cons_append, List.orderedInsert, if_neg (hA a (by simp)),
      List.append_eq]
    rw [ih (fun a' ha' => hA a' (List.mem_cons_of_mem _ ha'))]

theorem insertionSort_partition {α : Type} (r : α → α → Prop) [DecidableRel r]
    (p : α → Bool) (l : List α)
    (h1 : ∀ a b, a ∈ l → b ∈ l → p a = true → p b = false → r a b)
    (h2 : ∀ a b, a ∈ l → b ∈ l → p a = false → p b = true → ¬r a b) :
    List.insertionSort r l =
      List.insertionSort r (l.filter p) ++
        List.insertionSort r (l.filter fun x => !p x) := by
  induction l with
  | nil => rfl
  | cons x l ih =>
    have h1' : ∀ a b, a ∈ l → b ∈ l → p a = true → p b = false → r a b :=
      fun a b ha hb => h1 a b (List.mem_cons_of_mem _ ha) (List.mem_cons_of_mem _ hb)
    have h2' : ∀ a b, a ∈ l → b ∈ l → p a = false → p b = true → ¬r a b :=
      fun a b ha hb => h2 a b (List.mem_cons_of_mem _ ha) (List.mem_cons_of_mem _ hb)
    rw [List.insertionSort, ih h1' h2']
    cases hx : p x with
    | true =>
      rw [List.filter_cons_of_pos (by simp [hx]),
        List.filter_cons_of_neg (by simp [hx]), List.insertionSort,
        orderedInsert_append_pre]
      intro b hb
      have hbl : b ∈ l.filter fun y => !p y := (List.mem_insertionSort r).mp hb
      have hbp : p b = false := by
        have := (List.mem_filter.mp hbl).2
        simpa using this
      exact h1 x b (by simp) (List.mem_cons_of_mem _ (List.mem_filter.mp hbl).1) hx hbp
    | false =>
      rw [List.filter_cons_of_neg (by simp [hx]),
        List.filter_cons_of_pos (by simp [hx]), List.insertionSort,
        orderedInsert_append_post]
      intro a ha
      have hal : a ∈ l.filter p := (List.mem_insertionSort r).mp ha
      exact h2 x a (by simp) (List.mem_cons_of_mem _ (List.mem_filter.mp hal).1) hx
        (List.mem_filter.mp hal).2

theorem orderedInsert_congr {α : Type} (r r' : α → α → Prop)
    [DecidableRel r] [DecidableRel r'] (x : α) (l : List α)
    (h : ∀ b ∈ l, r x b ↔ r' x b) :
    List.orderedInsert r x l = List.orderedInsert r' x l := by
  induction l with
  | nil => rfl
  | cons b bs ih =>
    simp only [List.orderedInsert]
    by_cases hxb : r x b
    · rw [if_pos hxb, if_pos ((h b (by simp)).mp hxb)]
    · rw [if_neg hxb, if_neg (fun h' => hxb ((h b (by simp)).mpr h')),
        ih (fun b' hb' => h b' (List.mem_cons_of_mem _ hb'))]

theorem insertionSort_congr {α : Type} (r r' : α → α → Prop)
    [DecidableRel r] [DecidableRel r'] (l : List α)
    (h : ∀ a b, a ∈ l → b ∈ l → (r a b ↔ r' a b)) :
    List.insertionSort r l = List.insertionSort r' l := by
  induction l with
  | nil => rfl
  | cons x l ih =>
    have h' : ∀ a b, a ∈ l → b ∈ l → (r a b ↔ r' a b) :=
      fun a b ha hb => h a b (List.mem_cons_of_mem _ ha) (List.mem_cons_of_mem _ hb)
    rw [List.insertionSort, List.insertionSort, ih h']
    exact orderedInsert_congr r r' x _ (fun b hb =>
      h x b (by simp) (List.mem_cons_of_mem _ ((List.mem_insertionSort r').mp hb)))

/-! ## Order properties of the snippet comparator -/

theorem cmpSnippet_neg (so : SortOrder) (a b : Snippet) :
    cmpSnippet so a b = -cmpSnippet so b a := by
  cases so <;>
    simp only [cmpSnippet, localeCompare] <;>
    split_ifs <;>
    first
      | omega
      | exact cmpCharList_neg _ _

theorem cmpSnippet_trans (so : SortOrder) (a b c : Snippet)
    (h1 : cmpSnippet so a b ≤ 0) (h2 : cmpSnippet so b c ≤ 0) :
    cmpSnippet so a c ≤ 0 := by
  cases so <;>
    simp only [cmpSnippet, localeCompare] at h1 h2 ⊢ <;>
    split_ifs at h1 h2 ⊢ <;>
    first
      | omega
      | exact cmpCharList_trans _ _ _ h1 h2
      | exact cmpCharList_trans _ _ _ h2 h1

theorem snipR_total (so : SortOrder) (a b : Snippet) :
    snipR so a b ∨ snipR so b a := by
  unfold snipR
  rcases le_or_lt (cmpSnippet so a b) 0 with h | h
  · exact Or.inl h
  · right
    rw [cmpSnippet_neg]
    omega

/-- The output of the pipeline is sorted under the comparator
relation. -/
theorem filteredSnippets_sorted (st : FilterState) (l : List Snippet) :
    (filteredSnippets st l).Pairwise (snipR st.sortOrder) := by
  haveI : IsTotal Snippet (snipR st.sortOrder) := ⟨snipR_total st.sortOrder⟩
  haveI : IsTrans Snippet (snipR st.sortOrder) := ⟨cmpSnippet_trans st.sortOrder⟩
  exact List.sorted_insertionSort (snipR st.sortOrder) (l.filter (snippetFilter st))

/-- Members of the output are members of the input. -/
theorem mem_of_mem_filteredSnippets {st : FilterState} {l : List Snippet}
    {s : Snippet} (h : s ∈ filteredSnippets st l) : s ∈ l := by
  unfold filteredSnippets at h
  exact List.mem_of_mem_filter ((List.mem_insertionSort _).mp h)

/-! ## Deduplication lemmas -/

theorem mem_setDedupAux {α : Type} [DecidableEq α] (seen l : List α) (x : α) :
    x ∈ setDedupAux seen l ↔ x ∈ l ∧ x ∉ seen := by
  induction l generalizing seen with
  | nil => simp [setDedupAux]
  | cons a l ih =>
    simp only [setDedupAux]
    split_ifs with ha
    · rw [ih]
      simp only [List.mem_cons]
      constructor
      · rintro ⟨hx, hs⟩
        exact ⟨Or.inr hx, hs⟩
      · rintro ⟨rfl | hx, hs⟩
        · exact absurd ha hs
        · exact ⟨hx, hs⟩
    · simp only [List.mem_cons, ih (a :: seen)]
      constructor
      · rintro (rfl | ⟨hx, hs⟩)
        · exact ⟨Or.inl rfl, ha⟩
        · exact ⟨Or.inr hx, fun hc => hs (Or.inr hc)⟩
      · rintro ⟨rfl | hx, hs⟩
        · exact Or.inl rfl
        · by_cases hxa : x = a
          · exact Or.inl hxa
          · exact Or.inr ⟨hx, fun hc => by
              rcases hc with h | h
              · exact hxa h
              · exact hs h⟩

theorem mem_setDedup {α : Type} [DecidableEq α] (l : List α) (x : α) :
    x ∈ setDedup l ↔ x ∈ l := by
  rw [setDedup, mem_setDedupAux]
  simp

theorem nodup_setDedupAux {α : Type} [DecidableEq α] (seen l : List α) :
    (setDedupAux seen l).Nodup := by
  induction l generalizing seen with
  | nil => simp [setDedupAux]
  | cons a l ih =>
    simp only [setDedupAux]
    split_ifs with ha
    · exact ih seen
    · refine List.nodup_cons.mpr ⟨?_, ih (a :: seen)⟩
      intro hmem
      exact ((mem_setDedupAux (a :: seen) l a).mp hmem).2 (by simp)

/-! ## Filter lemmas -/

theorem strLower_empty : strLower "" = "" := rfl

theorem textMatch_empty (includeCode : Bool) (s : Snippet) :
    textMatch includeCode "" s = true := by
  simp only [textMatch, strLower_empty, strIncludes_empty, Bool.true_or,
    Bool.or_eq_true]

theorem snippetFilter_default (st : FilterState) (s : Snippet)
    (hsearch : st.searchTerm = "") (hlang : st.selectedLanguage = "")
    (hcats : st.selectedCategories = []) (hfav : st.showFavorites = false) :
    snippetFilter st s = true := by
  simp [snippetFilter, hsearch, hlang, hcats, hfav, textMatch_empty,
    languageMatch, categoryMatch]

/-- Changing only the sortOrder leaves the filter callback untouched:
the filter never reads sortOrder. -/
theorem snippetFilter_update_sortOrder (st : FilterState) (so : SortOrder) :
    snippetFilter { st with sortOrder := so } = snippetFilter st := rfl

/-! ## Import loop invariant -/

theorem importFold_total (items : List ImportItem) (p : ImportProgress) :
    (items.foldl importStep p).total = p.total := by
  induction items generalizing p with
  | nil => rfl
  | cons it items ih =>
    rw [List.foldl_cons, ih]
    cases ho : it.outcome <;> simp [importStep, ho]

theorem importFold_current (items : List ImportItem) (p : ImportProgress) :
    (items.foldl importStep p).current = p.current + items.length := by
  induction items generalizing p with
  | nil => simp
  | cons it items ih =>
    rw [List.foldl_cons, ih]
    cases ho : it.outcome <;> simp [importStep, ho] <;> omega

theorem importFold_counts (items : List ImportItem) (p : ImportProgress) :
    (items.foldl importStep p).succeeded + (items.foldl importStep p).failed
      = p.succeeded + p.failed + items.length := by
  induction items generalizing p with
  | nil => simp
  | cons it items ih =>
    rw [List.foldl_cons]
    have h := ih (importStep p it)
    rw [h]
    cases ho : it.outcome <;> simp [importStep, ho] <;> omega

theorem importFold_failed (items : List ImportItem) (p : ImportProgress) :
    (items.foldl importStep p).failed =
      p.failed +
        (items.filterMap (fun it => it.outcome.map fun e => (it.title, e))).length := by
  induction items generalizing p with
  | nil => simp
  | cons it items ih =>
    rw [List.foldl_cons, ih]
    cases ho : it.outcome <;> (simp [importStep, ho]; try omega)

theorem importFold_errors (items : List ImportItem) (p : ImportProgress) :
    (items.foldl importStep p).errors =
      p.errors ++ items.filterMap (fun it => it.outcome.map fun e => (it.title, e)) := by
  induction items generalizing p with
  | nil => simp
  | cons it items ih =>
    rw [List.foldl_cons, ih]
    cases ho : it.outcome <;> simp [importStep, ho]

/-! ## Claim C10 -/

/-- C10: during a JSON import every validated snippet is attempted
exactly once and a failing addSnippet call never stops the loop: after
the loop, current = total, succeeded + failed = total, and the error
list holds exactly one entry per failed snippet (in order, with that
snippet's title and error message). -/
theorem C10_import_progress (items : List ImportItem) :
    (importLoop items).total = items.length ∧
    (importLoop items).current = (importLoop items).total ∧
    (importLoop items).succeeded + (importLoop items).failed
        = (importLoop items).total ∧
    (importLoop items).errors =
      items.filterMap (fun it => it.outcome.map fun e => (it.title, e)) ∧
    (importLoop items).errors.length = (importLoop items).failed := by
  unfold importLoop
  refine ⟨importFold_total items _, ?_, ?_, ?_, ?_⟩
  · rw [importFold_current, importFold_total]
    simp
  · rw [importFold_counts, importFold_total]
    simp
  · rw [importFold_errors]
    rfl
  · rw [importFold_errors, importFold_failed]
    simp

/-! ## Claim C5 -/

/-- C5: category filtering is conjunctive: a snippet passes the
category filter iff every selected category is among its categories;
with nothing selected every snippet passes; and the snippet with
categories {a, b} fails the filter requiring {a, c}. -/
theorem C5_category_conjunctive :
    (∀ (cats : List String) (s : Snippet),
      categoryMatch cats s = true ↔ ∀ c ∈ cats, c ∈ s.categories) ∧
    (∀ s : Snippet, categoryMatch [] s = true) ∧
    categoryMatch ["a", "c"] abSnip = false := by
  refine ⟨?_, fun s => rfl, by decide⟩
  intro cats s
  simp only [categoryMatch, Bool.or_eq_true, List.isEmpty_iff, List.all_eq_true]
  constructor
  · rintro (rfl | h)
    · simp
    · intro c hc
      simpa using h c hc
  · intro h
    right
    intro c hc
    simpa using h c hc

/-! ## Claim C6 -/

/-- C6: the text filter passes iff the lowercased search term is a
substring of the lowercased title, or of the lowercased description,
or of some fragment's lowercased file name, or of some fragment's
lowercased normalized language label, or — only when the
include-code-in-search option is on — of some fragment's lowercased
raw code; the empty term matches every snippet; and searching "PY"
matches a snippet whose fragment language normalizes to "Python". -/
theorem C6_text_filter_iff :
    (∀ (includeCode : Bool) (term : String) (s : Snippet),
      textMatch includeCode term s = true ↔
        (IsSubstr (strLower term) (strLower s.title) ∨
         IsSubstr (strLower term) (strLower s.description) ∨
         (∃ f ∈ s.fragments, IsSubstr (strLower term) (strLower f.file_name)) ∨
         (∃ f ∈ s.fragments,
            IsSubstr (strLower term) (strLower (getLanguageLabel f.language))) ∨
         (includeCode = true ∧
            ∃ f ∈ s.fragments, IsSubstr (strLower term) (strLower f.code)))) ∧
    (∀ (includeCode : Bool) (s : Snippet), textMatch includeCode "" s = true) ∧
    textMatch false "PY" pySnip = true ∧
    (∃ f ∈ pySnip.fragments, getLanguageLabel f.language = "Python") := by
  refine ⟨?_, textMatch_empty, by decide, by decide⟩
  intro includeCode term s
  simp only [textMatch, fragTextHit, Bool.or_eq_true, Bool.and_eq_true,
    List.any_eq_true, strIncludes_iff]
  constructor
  · rintro ((h | h) | ⟨f, hf, (h | h) | ⟨hc, h⟩⟩)
    · exact Or.inl h
    · exact Or.inr (Or.inl h)
    · exact Or.inr (Or.inr (Or.inl ⟨f, hf, h⟩))
    · exact Or.inr (Or.inr (Or.inr (Or.inl ⟨f, hf, h⟩)))
    · exact Or.inr (Or.inr (Or.inr (Or.inr ⟨hc, f, hf, h⟩)))
  · rintro (h | h | ⟨f, hf, h⟩ | ⟨f, hf, h⟩ | ⟨hc, f, hf, h⟩)
    · exact Or.inl (Or.inl h)
    · exact Or.inl (Or.inr h)
    · exact Or.inr ⟨f, hf, Or.inl (Or.inl h)⟩
    · exact Or.inr ⟨f, hf, Or.inl (Or.inr h)⟩
    · exact Or.inr ⟨f, hf, Or.inr ⟨hc, h⟩⟩

/-! ## Claim C4 (corrected) -/

/-- C4 counterexample: with the favorites filter active, the visible
(post-filter) collection is [favSnip] only, yet confirming the bulk
delete calls the callback with the full snippets prop
[plainSnip, favSnip] — not with the post-filter collection the claim
names. -/
theorem C4_counterexample :
    (handlePermanentDeleteAllConfirm [plainSnip, favSnip]
        (openPermanentDeleteAllModal [plainSnip, favSnip] binInit)).deleteAllCalls
      = [[plainSnip, favSnip]] ∧
    filteredSnippets favState [plainSnip, favSnip] = [favSnip] ∧
    [[plainSnip, favSnip]] ≠ ([[favSnip]] : List (List Snippet)) := by
  decide

/-- C4 (amended): the bulk permanently-delete-all action, when
confirmed, makes a single call to the delete callback passing the full
input snippet collection (the component's snippets prop, before
filtering); opening the dialog never calls the callback, and on an
empty input collection the open action is a no-op that raises an info
toast and neither opens the dialog nor calls the callback. -/
theorem C4_delete_all_flow (snippets : List Snippet) (st st' : BinState) :
    ((openPermanentDeleteAllModal [] st).modalOpen = st.modalOpen ∧
     (openPermanentDeleteAllModal [] st).deleteAllCalls = st.deleteAllCalls ∧
     (openPermanentDeleteAllModal [] st).infoToasts = st.infoToasts + 1) ∧
    (snippets ≠ [] →
      openPermanentDeleteAllModal snippets st = { st with modalOpen := true }) ∧
    ((handlePermanentDeleteAllConfirm snippets st').deleteAllCalls
        = st'.deleteAllCalls ++ [snippets] ∧
     (handlePermanentDeleteAllConfirm snippets st').modalOpen = false) := by
  refine ⟨⟨rfl, rfl, rfl⟩, ?_, rfl, rfl⟩
  intro h
  unfold openPermanentDeleteAllModal
  rw [if_neg]
  simpa using h

/-- C4 witness: opening the dialog on a non-empty collection at the
initial state only opens the modal. -/
theorem C4_delete_all_flow_witness :
    openPermanentDeleteAllModal [plainSnip] binInit
      = { binInit with modalOpen := true } :=
  (C4_delete_all_flow [plainSnip] binInit binInit).2.1 (by decide)

/-! ## Claim C8 (corrected) -/

/-- C8 counterexample: toggling a category that sits before the end of
the selected list twice re-appends it at the end, so the categories
URL parameter does not return to its original value: from state
[a, b], double-toggling a yields the parameter "b,a" instead of the
original "a,b". -/
theorem C8_counterexample :
    (handleCategoryClick "a" (handleCategoryClick "a" ["a", "b"] "").1 "").2.categories
      = some "b,a" ∧
    (paramsFor ["a", "b"] "").categories = some "a,b" ∧
    (handleCategoryClick "a" (handleCategoryClick "a" ["a", "b"] "").1 "").2
      ≠ paramsFor ["a", "b"] "" := by
  decide

/-- C8 (amended): toggling a category twice returns the
selected-category set to its original membership (the list may be
reordered, the toggled category moving to the end); when the toggled
category was not previously selected, the list and the URL parameters
return exactly to their original values, including full removal of the
categories parameter when the set becomes empty. -/
theorem C8_toggle_twice (category language : String) (prev : List String) :
    (∀ x, x ∈ (handleCategoryClick category
        (handleCategoryClick category prev language).1 language).1 ↔ x ∈ prev) ∧
    (category ∉ prev →
      handleCategoryClick category
          (handleCategoryClick category prev language).1 language
        = (prev, paramsFor prev language)) := by
  by_cases hmem : category ∈ prev
  · refine ⟨?_, fun h => absurd hmem h⟩
    intro x
    have h1 : (handleCategoryClick category prev language).1
        = prev.filter (fun c => c ≠ category) := by
      simp [handleCategoryClick, hmem]
    have h2 : category ∉ prev.filter (fun c => c ≠ category) := by
      simp
    have h3 : (handleCategoryClick category
        (prev.filter (fun c => c ≠ category)) language).1
        = prev.filter (fun c => c ≠ category) ++ [category] := by
      simp [handleCategoryClick, h2]
    rw [h1, h3]
    simp only [List.mem_append, List.mem_filter, decide_eq_true_eq,
      List.mem_singleton]
    constructor
    · rintro (⟨hp, -⟩ | rfl)
      · exact hp
      · exact hmem
    · intro hp
      by_cases hx : x = category
      · exact Or.inr hx
      · exact Or.inl ⟨hp, hx⟩
  · have hupd : (handleCategoryClick category prev language).1
        = prev ++ [category] := by
      simp [handleCategoryClick, hmem]
    have hfil : (prev ++ [category]).filter (fun c => c ≠ category) = prev := by
      have hone : ([category] : List String).filter (fun c => c ≠ category) = [] := by
        simp
      rw [List.filter_append, hone, List.append_nil, List.filter_eq_self]
      intro c hc
      simp only [decide_eq_true_eq]
      exact fun heq => hmem (heq ▸ hc)
    have hc2 : category ∈ prev ++ [category] := by simp
    have heq2 : handleCategoryClick category (prev ++ [category]) language
        = (prev, paramsFor prev language) := by
      simp only [handleCategoryClick, if_pos hc2, hfil]
    rw [hupd, heq2]
    exact ⟨fun x => Iff.rfl, fun _ => rfl⟩

/-- C8 witness: double-toggling a category that was not selected
restores both the list and the URL parameters exactly (here from a
one-element state). -/
theorem C8_toggle_twice_witness :
    handleCategoryClick "b" (handleCategoryClick "b" ["a"] "").1 ""
      = (["a"], paramsFor ["a"] "") :=
  (C8_toggle_twice "b" "" ["a"]).2 (by decide)

/-! ## Claim C1 -/

/-- C1: in the pipeline's output, for any sortOrder, every pinned
snippet (is_pinned = 1) appears before every unpinned one
(is_pinned = 0): pairwise, a later element being pinned forces every
earlier element to be pinned. -/
theorem C1_pinned_precede_unpinned (st : FilterState) (l : List Snippet)
    (hwf : FlagsWF l) :
    (filteredSnippets st l).Pairwise
      (fun a b => b.is_pinned = 1 → a.is_pinned = 1) := by
  refine (filteredSnippets_sorted st l).imp_of_mem ?_
  intro a b ha hb hr hb1
  rcases hwf a (mem_of_mem_filteredSnippets ha) with h0 | h1
  · exfalso
    have hv : cmpSnippet st.sortOrder a b = 1 := by
      simp [cmpSnippet, h0, hb1]
    unfold snipR at hr
    omega
  · exact h1

/-- C1 witness: at the spec's example collection under alpha-asc, the
flags are 0/1-valued and the output has all pinned before unpinned. -/
theorem C1_pinned_precede_unpinned_witness :
    FlagsWF [exS1, exS2, exS3] ∧
    (filteredSnippets alphaState [exS1, exS2, exS3]).Pairwise
      (fun a b => b.is_pinned = 1 → a.is_pinned = 1) :=
  ⟨by decide, C1_pinned_precede_unpinned alphaState [exS1, exS2, exS3] (by decide)⟩

/-! ## Claim C2 (corrected) -/

/-- C2 counterexample: two pinned snippets sharing one updated_at
timestamp are not in strictly descending updated_at order in the
output; their order among the pinned is only non-increasing. -/
theorem C2_counterexample :
    ¬ ((filteredSnippets defaultState [tieP1, tieP2]).filter
        (fun s => s.is_pinned == 1)).Pairwise
      (fun a b => b.updated_at < a.updated_at) := by
  decide

/-- The pinned block of the pipeline's output is the stable sort of
the pinned part of the filtered input. -/
theorem filteredSnippets_pinned_part (st : FilterState) (l : List Snippet)
    (so : SortOrder) (hwf : FlagsWF l) :
    (filteredSnippets { st with sortOrder := so } l).filter
        (fun s => s.is_pinned == 1)
      = List.insertionSort (snipR so)
          ((l.filter (snippetFilter st)).filter (fun s => s.is_pinned == 1)) := by
  unfold filteredSnippets
  rw [snippetFilter_update_sortOrder]
  have hwfL : FlagsWF (l.filter (snippetFilter st)) :=
    fun s hs => hwf s (List.mem_of_mem_filter hs)
  have hpart := insertionSort_partition (snipR so) (fun s => s.is_pinned == 1)
    (l.filter (snippetFilter st)) ?_ ?_
  · rw [hpart, List.filter_append]
    have hA : (List.insertionSort (snipR so)
        ((l.filter (snippetFilter st)).filter fun s => s.is_pinned == 1)).filter
          (fun s => s.is_pinned == 1)
        = List.insertionSort (snipR so)
            ((l.filter (snippetFilter st)).filter fun s => s.is_pinned == 1) :=
      List.filter_eq_self.mpr (fun a ha =>
        (List.mem_filter.mp ((List.mem_insertionSort _).mp ha)).2)
    have hB : (List.insertionSort (snipR so)
        ((l.filter (snippetFilter st)).filter fun s => !(s.is_pinned == 1))).filter
          (fun s => s.is_pinned == 1) = [] := by
      rw [List.filter_eq_nil_iff]
      intro a ha hpa
      have hneg := (List.mem_filter.mp ((List.mem_insertionSort _).mp ha)).2
      rw [hpa] at hneg
      exact absurd hneg (by simp)
    rw [hA, hB, List.append_nil]
  · intro a b haL hbL hpa hpb
    have ha1 : a.is_pinned = 1 := by simpa using hpa
    have hb0 : b.is_pinned = 0 := by
      rcases hwfL b hbL with h | h
      · exact h
      · exfalso
        have hpb' : (b.is_pinned == 1) = false := hpb
        rw [h] at hpb'
        exact absurd hpb' (by simp)
    unfold snipR
    have hv : cmpSnippet so a b = -1 := by
      simp [cmpSnippet, ha1, hb0]
    omega
  · intro a b haL hbL hpa hpb
    have ha0 : a.is_pinned = 0 := by
      rcases hwfL a haL with h | h
      · exact h
      · exfalso
        have hpa' : (a.is_pinned == 1) = false := hpa
        rw [h] at hpa'
        exact absurd hpa' (by simp)
    have hb1 : b.is_pinned = 1 := by simpa using hpb
    unfold snipR
    have hv : cmpSnippet so a b = 1 := by
      simp [cmpSnippet, ha0, hb1]
    omega

/-- On a list of pinned snippets the sort relation does not depend on
the sortOrder, so neither does the stable sort. -/
theorem insertionSort_pinned_congr (so so' : SortOrder) (L : List Snippet)
    (hL : ∀ s ∈ L, s.is_pinned = 1) :
    List.insertionSort (snipR so) L = List.insertionSort (snipR so') L := by
  apply insertionSort_congr
  intro a b ha hb
  have ha1 := hL a ha
  have hb1 := hL b hb
  have e : cmpSnippet so a b = cmpSnippet so' a b := by
    simp [cmpSnippet, ha1, hb1]
  unfold snipR
  rw [e]

/-- C2 (amended): among pinned snippets the output is ordered by
updated_at non-increasing (descending with ties kept in input order),
and the sequence of pinned snippets in the output is the same for
every sortOrder. -/
theorem C2_pinned_recency (st : FilterState) (l : List Snippet)
    (so so' : SortOrder) (hwf : FlagsWF l) :
    (filteredSnippets st l).Pairwise
      (fun a b => a.is_pinned = 1 → b.is_pinned = 1 →
        b.updated_at ≤ a.updated_at) ∧
    (filteredSnippets { st with sortOrder := so } l).filter
        (fun s => s.is_pinned == 1)
      = (filteredSnippets { st with sortOrder := so' } l).filter
          (fun s => s.is_pinned == 1) := by
  constructor
  · refine (filteredSnippets_sorted st l).imp ?_
    intro a b hr ha1 hb1
    unfold snipR at hr
    have e : cmpSnippet st.sortOrder a b
        = (b.updated_at : Int) - (a.updated_at : Int) := by
      simp [cmpSnippet, ha1, hb1]
    rw [e] at hr
    omega
  · rw [filteredSnippets_pinned_part st l so hwf,
      filteredSnippets_pinned_part st l so' hwf]
    exact insertionSort_pinned_congr so so' _
      (fun s hs => by simpa using (List.mem_filter.mp hs).2)

/-- C2 witness: at the example collection the flags are 0/1-valued,
the pinned outputs agree between newest and alpha-asc, and the pinned
recency order is non-increasing. -/
theorem C2_pinned_recency_witness :
    FlagsWF [exS1, exS2, exS3] ∧
    ((filteredSnippets alphaState [exS1, exS2, exS3]).Pairwise
      (fun a b => a.is_pinned = 1 → b.is_pinned = 1 →
        b.updated_at ≤ a.updated_at) ∧
    (filteredSnippets { alphaState with sortOrder := SortOrder.newest }
        [exS1, exS2, exS3]).filter (fun s => s.is_pinned == 1)
      = (filteredSnippets { alphaState with sortOrder := SortOrder.alphaDesc }
          [exS1, exS2, exS3]).filter (fun s => s.is_pinned == 1)) :=
  ⟨by decide, C2_pinned_recency alphaState [exS1, exS2, exS3]
    SortOrder.newest SortOrder.alphaDesc (by decide)⟩

/-! ## Claim C3 (corrected) -/

/-- C3 counterexample: with sortOrder alpha-asc the spec's example
input [S1, S2, S3] renders as [S3, S1, S2] (pinned by recency
descending puts S3 before S1), not as the [S1, S3, S2] the claim
asserts. -/
theorem C3_counterexample :
    filteredSnippets alphaState [exS1, exS2, exS3] = [exS3, exS1, exS2] ∧
    filteredSnippets alphaState [exS1, exS2, exS3] ≠ [exS1, exS3, exS2] := by
  decide

/-- C3 (amended): under alpha-asc the unpinned snippets' titles are
non-decreasing under the locale comparison, under alpha-desc
non-increasing; and the spec's example input under alpha-asc renders
as [S3, S1, S2] (pinned by recency descending first, then unpinned
alphabetically). -/
theorem C3_alpha_title_order (st : FilterState) (l : List Snippet) :
    (st.sortOrder = SortOrder.alphaAsc →
      (filteredSnippets st l).Pairwise
        (fun a b => a.is_pinned = 0 → b.is_pinned = 0 →
          localeCompare a.title b.title ≤ 0)) ∧
    (st.sortOrder = SortOrder.alphaDesc →
      (filteredSnippets st l).Pairwise
        (fun a b => a.is_pinned = 0 → b.is_pinned = 0 →
          localeCompare b.title a.title ≤ 0)) ∧
    filteredSnippets alphaState [exS1, exS2, exS3] = [exS3, exS1, exS2] := by
  refine ⟨?_, ?_, by decide⟩
  · intro hso
    refine (filteredSnippets_sorted st l).imp ?_
    intro a b hr ha0 hb0
    unfold snipR at hr
    rw [hso] at hr
    have e : cmpSnippet SortOrder.alphaAsc a b = localeCompare a.title b.title := by
      simp [cmpSnippet, ha0, hb0]
    rw [e] at hr
    exact hr
  · intro hso
    refine (filteredSnippets_sorted st l).imp ?_
    intro a b hr ha0 hb0
    unfold snipR at hr
    rw [hso] at hr
    have e : cmpSnippet SortOrder.alphaDesc a b = localeCompare b.title a.title := by
      simp [cmpSnippet, ha0, hb0]
    rw [e] at hr
    exact hr

/-- C3 witness: at the example collection under alpha-asc the unpinned
titles are non-decreasing under the locale comparison. -/
theorem C3_alpha_title_order_witness :
    alphaState.sortOrder = SortOrder.alphaAsc ∧
    (filteredSnippets alphaState [exS1, exS2, exS3]).Pairwise
      (fun a b => a.is_pinned = 0 → b.is_pinned = 0 →
        localeCompare a.title b.title ≤ 0) :=
  ⟨rfl, (C3_alpha_title_order alphaState [exS1, exS2, exS3]).1 rfl⟩

/-! ## Claim C7 -/

/-- C7: with empty searchTerm, empty selectedLanguage, empty
selectedCategories and showFavorites off, the pipeline returns every
input snippet exactly once (a permutation of the input), in sorted
order, and on the empty collection it returns the empty result; it is
total by construction. -/
theorem C7_default_filters (st : FilterState) (l : List Snippet)
    (hsearch : st.searchTerm = "") (hlang : st.selectedLanguage = "")
    (hcats : st.selectedCategories = []) (hfav : st.showFavorites = false) :
    (filteredSnippets st l).Perm l ∧
    (filteredSnippets st l).Pairwise (snipR st.sortOrder) ∧
    filteredSnippets st [] = [] := by
  have hall : l.filter (snippetFilter st) = l :=
    List.filter_eq_self.mpr fun s _ =>
      snippetFilter_default st s hsearch hlang hcats hfav
  refine ⟨?_, filteredSnippets_sorted st l, rfl⟩
  unfold filteredSnippets
  rw [hall]
  exact List.perm_insertionSort _ l

/-- C7 witness: at the default state the pipeline permutes the
two-element example collection and sorts it. -/
theorem C7_default_filters_witness :
    (filteredSnippets defaultState [exS2, exS1]).Perm [exS2, exS1] ∧
    (filteredSnippets defaultState [exS2, exS1]).Pairwise
      (snipR defaultState.sortOrder) ∧
    filteredSnippets defaultState [] = [] :=
  C7_default_filters defaultState [exS2, exS1] rfl rfl rfl rfl

/-! ## Claim C9 -/

/-- C9: the languages facet is the alphabetically sorted set of
distinct normalized language labels (through getLanguageLabel, the
display normalization) over all fragments of all snippets, and
allCategories is the sorted set of distinct category tags; neither
facet depends on the filter state. -/
theorem C9_facets (snippets : List Snippet) (st st' : FilterState) :
    (pipelineView st snippets).langs = (pipelineView st' snippets).langs ∧
    (pipelineView st snippets).cats = (pipelineView st' snippets).cats ∧
    (languages snippets).Pairwise strR ∧
    (languages snippets).Nodup ∧
    (∀ x, x ∈ languages snippets ↔
      ∃ s ∈ snippets, ∃ f ∈ s.fragments, getLanguageLabel f.language = x) ∧
    (allCategories snippets).Pairwise strR ∧
    (allCategories snippets).Nodup ∧
    (∀ x, x ∈ allCategories snippets ↔ ∃ s ∈ snippets, x ∈ s.categories) := by
  haveI : IsTotal String strR := ⟨fun a b => cmpCharList_total a.data b.data⟩
  haveI : IsTrans String strR := ⟨fun a b c => cmpCharList_trans a.data b.data c.data⟩
  refine ⟨rfl, rfl, List.sorted_insertionSort _ _, ?_, ?_,
    List.sorted_insertionSort _ _, ?_, ?_⟩
  · exact ((List.perm_insertionSort _ _).nodup_iff).mpr (nodup_setDedupAux [] _)
  · intro x
    unfold languages
    rw [List.mem_insertionSort, mem_setDedup]
    simp only [List.mem_flatten, List.mem_map]
    constructor
    · rintro ⟨_, ⟨s, hs, rfl⟩, hx⟩
      rcases List.mem_map.mp hx with ⟨f, hf, rfl⟩
      exact ⟨s, hs, f, hf, rfl⟩
    · rintro ⟨s, hs, f, hf, rfl⟩
      exact ⟨_, ⟨s, hs, rfl⟩, List.mem_map.mpr ⟨f, hf, rfl⟩⟩
  · exact ((List.perm_insertionSort _ _).nodup_iff).mpr (nodup_setDedupAux [] _)
  · intro x
    unfold allCategories
    rw [List.mem_insertionSort, mem_setDedup]
    simp only [List.mem_flatten, List.mem_map]
    constructor
    · rintro ⟨_, ⟨s, hs, rfl⟩, hx⟩
      exact ⟨s, hs, hx⟩
    · rintro ⟨s, hs, hx⟩
      exact ⟨_, ⟨s, hs, rfl⟩, hx⟩

end CodeHub
